import Mathlib

/-!
Verification of the derivation pipeline of `app_sales.py` (function
`load_data` and its helpers).  Order lines are embedded as a `Row`
structure; pandas column derivations become Lean functions over lists of
rows; code that can raise a Python exception is embedded with `Except`.
Monetary amounts are rationals, dates are day numbers (`Int`), and
strings from the data are lists of characters.
-/

namespace AppSales

/-- One order line after ingestion, with the columns the derivation
pipeline reads: order id, product code, customer contact id, order date
(as a day number), paid amount, supply cost and the address cell (absent
for a pandas missing value). -/
structure Row where
  orderId : Nat
  productCode : Nat
  customer : Nat
  orderDate : Int
  paid : Rat
  supply : Rat
  address : Option (List Char)
deriving Repr, DecidableEq

/-- Line 73: `df['GP'] = df['결제금액(상품별)'] - df['공급가']`. -/
def gp (r : Row) : Rat := r.paid - r.supply

/-- Line 74: `df['마진율'] = np.where(df['결제금액(상품별)'] > 0, df['GP'] / df['결제금액(상품별)'], 0)`. -/
def margin (r : Row) : Rat := if 0 < r.paid then gp r / r.paid else 0

/-- One source CSV file of the data directory, described by what the two
read attempts of lines 49 and 53 would yield: `cp949` is the parse
result under the primary encoding (`none` when `pd.read_csv(file,
encoding='cp949')` raises), `utf8` likewise for the secondary
encoding. -/
structure SrcFile where
  cp949 : Option (List Row)
  utf8 : Option (List Row)
deriving Repr, DecidableEq

/-- Lines 47-55: try the primary encoding; on any exception fall back to
the secondary encoding.  The fallback read is not guarded, so when it
also fails its exception escapes `load_data`. -/
def read_with_fallback (f : SrcFile) : Except Unit (List Row) :=
  match f.cp949 with
  | some rows => Except.ok rows
  | none =>
    match f.utf8 with
    | some rows => Except.ok rows
    | none => Except.error ()

/-- Lines 46-57: the ingestion loop over the files followed by
`pd.concat`; an exception from any file read aborts the loop and
propagates out of `load_data`. -/
def load_rows : List SrcFile → Except Unit (List Row)
  | [] => Except.ok []
  | f :: fs =>
    match read_with_fallback f with
    | Except.error e => Except.error e
    | Except.ok rows =>
      match load_rows fs with
      | Except.error e => Except.error e
      | Except.ok rest => Except.ok (rows ++ rest)

/-- Line 60: the composite dedup key `['주문번호', '상품코드']`. -/
def dedupKey (r : Row) : Nat × Nat := (r.orderId, r.productCode)

/-- Line 60: `df.drop_duplicates(subset=['주문번호', '상품코드'],
keep='last')` — a row survives exactly when no later row carries the
same composite key, and the surviving rows keep their relative order. -/
def drop_duplicates : List Row → List Row
  | [] => []
  | r :: rs =>
    if rs.any (fun s => decide (dedupKey s = dedupKey r)) then drop_duplicates rs
    else r :: drop_duplicates rs

/-- Lines 140-144, `segment_customer`: segment from the composite RFM
total.  The labels are the source's strings for VIP, high-value,
developing and needs-attention. -/
def segment_customer (total : Int) : String :=
  if total ≥ 13 then "VIP (최우수)"
  else if total ≥ 10 then "우수 고객"
  else if total ≥ 7 then "잠재 고객"
  else "집중 관리"

/-- Sample row with positive paid amount and a larger supply cost. -/
def rowPos : Row :=
  { orderId := 1, productCode := 1, customer := 1, orderDate := 0,
    paid := 5, supply := 7, address := none }

/-- Sample row with paid amount zero. -/
def rowZero : Row :=
  { orderId := 2, productCode := 1, customer := 1, orderDate := 0,
    paid := 0, supply := 3, address := none }

/-- C2: for every row GP is exactly paid minus supply cost (no clamping,
negative GP allowed), margin is GP divided by paid when paid is
positive and 0 when paid is nonpositive; both are total functions. -/
theorem gp_margin_spec (r : Row) :
    gp r = r.paid - r.supply ∧
    (0 < r.paid → margin r = gp r / r.paid) ∧
    (r.paid ≤ 0 → margin r = 0) := by
  refine ⟨rfl, fun h => ?_, fun h => ?_⟩
  · unfold margin
    rw [if_pos h]
  · unfold margin
    rw [if_neg (not_lt.mpr h)]

/-- Witness for C2 at concrete rows: a row paid 5, supply 7 has margin
GP/paid (and its GP is the negative -2), a row with paid 0 has margin 0. -/
theorem gp_margin_spec_witness :
    margin rowPos = gp rowPos / rowPos.paid ∧ margin rowZero = 0 :=
  ⟨(gp_margin_spec rowPos).2.1 (by decide),
   (gp_margin_spec rowZero).2.2 (by decide)⟩

/-- C4: segment from the composite total: at least 13 gives VIP, 10-12
high-value, 7-9 developing, below 7 needs attention; in particular the
boundary totals 13, 12, 7 and 6. -/
theorem segment_customer_spec (total : Int) :
    (13 ≤ total → segment_customer total = "VIP (최우수)") ∧
    (10 ≤ total ∧ total ≤ 12 → segment_customer total = "우수 고객") ∧
    (7 ≤ total ∧ total ≤ 9 → segment_customer total = "잠재 고객") ∧
    (total < 7 → segment_customer total = "집중 관리") ∧
    segment_customer 13 = "VIP (최우수)" ∧
    segment_customer 12 = "우수 고객" ∧
    segment_customer 7 = "잠재 고객" ∧
    segment_customer 6 = "집중 관리" := by
  unfold segment_customer
  refine ⟨fun h => ?_, fun h => ?_, fun h => ?_, fun h => ?_,
    by decide, by decide, by decide, by decide⟩
  · rw [if_pos h]
  · rw [if_neg (by omega), if_pos (by omega)]
  · rw [if_neg (by omega), if_neg (by omega), if_pos (by omega)]
  · rw [if_neg (by omega), if_neg (by omega), if_neg (by omega)]

/-- Witness for C4: a total of 14 is VIP, 11 high-value, 8 developing,
3 needs attention. -/
theorem segment_customer_spec_witness :
    segment_customer 14 = "VIP (최우수)" ∧
    segment_customer 11 = "우수 고객" ∧
    segment_customer 8 = "잠재 고객" ∧
    segment_customer 3 = "집중 관리" :=
  ⟨(segment_customer_spec 14).1 (by omega),
   (segment_customer_spec 11).2.1 (by omega),
   (segment_customer_spec 8).2.2.1 (by omega),
   (segment_customer_spec 3).2.2.2.1 (by omega)⟩

/-- Concrete file whose content parses under neither encoding. -/
def badFile : SrcFile := ⟨none, none⟩

/-- Concrete file readable under the primary encoding. -/
def goodFile : SrcFile := ⟨some [rowPos], none⟩

/-- C1 counterexample: with a file that fails both encodings followed by
a readable file, the load fails outright — the unreadable file is not
skipped and the readable file's rows are not returned, contradicting
the claim that the load as a whole does not fail. -/
theorem load_skip_counterexample :
    load_rows [badFile, goodFile] = Except.error () ∧
    ∀ rs : List Row, load_rows [badFile, goodFile] ≠ Except.ok rs := by
  have h1 : load_rows [badFile, goodFile] = Except.error () := rfl
  refine ⟨h1, fun rs h => ?_⟩
  rw [h1] at h
  exact Except.noConfusion h

/-- C1 amended: a file whose primary-encoding read fails is retried with
the secondary encoding, but when both fail the exception propagates and
the whole load fails; only when every file is readable under one of the
two encodings does the load succeed. -/
theorem load_aborts_when_both_encodings_fail (fs : List SrcFile) :
    ((∃ f ∈ fs, f.cp949 = none ∧ f.utf8 = none) →
      load_rows fs = Except.error ()) ∧
    ((∀ f ∈ fs, f.cp949 ≠ none ∨ f.utf8 ≠ none) →
      ∃ rs, load_rows fs = Except.ok rs) := by
  induction fs with
  | nil =>
    constructor
    · rintro ⟨f, hf, -⟩
      exact absurd hf (List.not_mem_nil f)
    · intro _
      exact ⟨[], rfl⟩
  | cons f fs ih =>
    constructor
    · rintro ⟨g, hg, hg1, hg2⟩
      rcases List.mem_cons.mp hg with rfl | hgs
      · simp [load_rows, read_with_fallback, hg1, hg2]
      · have htail := ih.1 ⟨g, hgs, hg1, hg2⟩
        cases hr : read_with_fallback f with
        | error e => simp [load_rows, hr]
        | ok rows => simp [load_rows, hr, htail]
    · intro hall
      obtain ⟨rest, hrest⟩ := ih.2 (fun g hg => hall g (List.mem_cons_of_mem f hg))
      have hf := hall f (List.mem_cons_self f fs)
      have hok : ∃ rows, read_with_fallback f = Except.ok rows := by
        unfold read_with_fallback
        cases hc : f.cp949 with
        | some rows => exact ⟨rows, rfl⟩
        | none =>
          cases hu : f.utf8 with
          | some rows => exact ⟨rows, rfl⟩
          | none =>
            rcases hf with h | h
            · exact absurd hc h
            · exact absurd hu h
      obtain ⟨rows, hrows⟩ := hok
      exact ⟨rows ++ rest, by simp [load_rows, hrows, hrest]⟩

/-- Witness for the amended C1 theorem: a single doubly-unreadable file
makes the load fail; a single readable file loads. -/
theorem load_aborts_when_both_encodings_fail_witness :
    load_rows [badFile] = Except.error () ∧
    ∃ rs, load_rows [goodFile] = Except.ok rs :=
  ⟨(load_aborts_when_both_encodings_fail [badFile]).1
      ⟨badFile, List.mem_cons_self _ _, rfl, rfl⟩,
   (load_aborts_when_both_encodings_fail [goodFile]).2 (by decide)⟩

/-- Every surviving row of the dedup pass was present in the input. -/
lemma mem_of_mem_dropDup (x : Row) :
    ∀ (xs : List Row), x ∈ drop_duplicates xs → x ∈ xs := by
  intro xs
  induction xs with
  | nil => intro h; simp [drop_duplicates] at h
  | cons r rs ih =>
    intro h
    rw [drop_duplicates] at h
    split at h
    · exact List.mem_cons_of_mem r (ih h)
    · rcases List.mem_cons.mp h with h1 | h2
      · exact h1 ▸ List.mem_cons_self r rs
      · exact List.mem_cons_of_mem r (ih h2)

/-- Deduplication is idempotent. -/
lemma dropDup_idem :
    ∀ (xs : List Row), drop_duplicates (drop_duplicates xs) = drop_duplicates xs := by
  intro xs
  induction xs with
  | nil => rfl
  | cons r rs ih =>
    rw [drop_duplicates]
    split
    · exact ih
    · rename_i hna
      have h2 : ¬ ((drop_duplicates rs).any
          (fun s => decide (dedupKey s = dedupKey r)) = true) := by
        intro hcon
        apply hna
        simp only [List.any_eq_true, decide_eq_true_eq] at hcon ⊢
        obtain ⟨s, hs, hk⟩ := hcon
        exact ⟨s, mem_of_mem_dropDup s _ hs, hk⟩
      conv_lhs => rw [drop_duplicates]
      rw [if_neg h2, ih]

/-- Ingesting the same record list twice and deduplicating gives the
same result as deduplicating it once. -/
lemma dropDup_append_absorb (xs ys : List Row)
    (h : ∀ x ∈ xs, ∃ y ∈ ys, dedupKey y = dedupKey x) :
    drop_duplicates (xs ++ ys) = drop_duplicates ys := by
  induction xs with
  | nil => rfl
  | cons r rs ih =>
    have hany : (rs ++ ys).any (fun s => decide (dedupKey s = dedupKey r)) = true := by
      obtain ⟨y, hy, hk⟩ := h r (List.mem_cons_self r rs)
      simp only [List.any_eq_true, decide_eq_true_eq]
      exact ⟨y, List.mem_append_right rs hy, hk⟩
    rw [List.cons_append, drop_duplicates, if_pos hany]
    exact ih (fun x hx => h x (List.mem_cons_of_mem r hx))

/-- After deduplication the composite keys are pairwise distinct. -/
lemma dropDup_keys_nodup :
    ∀ (xs : List Row), ((drop_duplicates xs).map dedupKey).Nodup := by
  intro xs
  induction xs with
  | nil => simp [drop_duplicates]
  | cons r rs ih =>
    rw [drop_duplicates]
    split
    · exact ih
    · rename_i hna
      rw [List.map_cons]
      refine List.nodup_cons.mpr ⟨?_, ih⟩
      intro hmem
      apply hna
      simp only [List.mem_map] at hmem
      obtain ⟨s, hs, hk⟩ := hmem
      simp only [List.any_eq_true, decide_eq_true_eq]
      exact ⟨s, mem_of_mem_dropDup s _ hs, hk⟩

/-- For each composite key, deduplication keeps exactly the last input
row bearing that key (and nothing when the key never occurs). -/
lemma dropDup_filter_eq (k : Nat × Nat) :
    ∀ (xs : List Row),
      (drop_duplicates xs).filter (fun r => decide (dedupKey r = k)) =
        ((xs.filter (fun r => decide (dedupKey r = k))).getLast?).toList := by
  intro xs
  induction xs with
  | nil => rfl
  | cons r rs ih =>
    rw [drop_duplicates]
    split
    · rename_i hany
      rw [ih]
      by_cases hk : dedupKey r = k
      · have hne : rs.filter (fun r => decide (dedupKey r = k)) ≠ [] := by
          simp only [List.any_eq_true, decide_eq_true_eq] at hany
          obtain ⟨s, hs, hsk⟩ := hany
          intro hcon
          have hmem : s ∈ rs.filter (fun r => decide (dedupKey r = k)) := by
            rw [List.mem_filter]
            exact ⟨hs, by simp [hsk, hk]⟩
          rw [hcon] at hmem
          exact List.not_mem_nil s hmem
        rw [List.filter_cons_of_pos (by simp [hk])]
        cases hl : rs.filter (fun r => decide (dedupKey r = k)) with
        | nil => exact absurd hl hne
        | cons a l => rw [List.getLast?_cons_cons]
      · rw [List.filter_cons_of_neg (by simp [hk])]
    · rename_i hna
      by_cases hk : dedupKey r = k
      · have hnil : rs.filter (fun r => decide (dedupKey r = k)) = [] := by
          rw [List.filter_eq_nil_iff]
          intro a ha
          simp only [decide_eq_true_eq]
          intro hak
          apply hna
          simp only [List.any_eq_true, decide_eq_true_eq]
          exact ⟨a, ha, by rw [hak, hk]⟩
        have hnil2 : (drop_duplicates rs).filter
            (fun r => decide (dedupKey r = k)) = [] := by
          rw [ih, hnil]
          rfl
        rw [List.filter_cons_of_pos (by simp [hk]),
          List.filter_cons_of_pos (by simp [hk]), hnil, hnil2]
        rfl
      · rw [List.filter_cons_of_neg (by simp [hk]),
          List.filter_cons_of_neg (by simp [hk])]
        exact ih

/-- C3: deduplication on the composite (order id, product code) key is
idempotent, re-ingesting the same record list twice gives an identical
result (hence identical row count and key set), every key group
collapses to exactly one row, and the surviving row for each key is the
last occurrence in concatenation order. -/
theorem dedup_idempotent_last_wins (xs : List Row) :
    drop_duplicates (drop_duplicates xs) = drop_duplicates xs ∧
    drop_duplicates (xs ++ xs) = drop_duplicates xs ∧
    ((drop_duplicates xs).map dedupKey).Nodup ∧
    ∀ k : Nat × Nat,
      (drop_duplicates xs).filter (fun r => decide (dedupKey r = k)) =
        ((xs.filter (fun r => decide (dedupKey r = k))).getLast?).toList :=
  ⟨dropDup_idem xs,
   dropDup_append_absorb xs xs (fun x hx => ⟨x, hx, rfl⟩),
   dropDup_keys_nodup xs,
   fun k => dropDup_filter_eq k xs⟩

/-- Python whitespace characters recognised by `str.split()` (the ASCII
ones; the data at hand contains no exotic Unicode spaces). -/
def pyIsSpace (c : Char) : Bool :=
  c = ' ' || c = '\t' || c = '\n' || c = '\r' || c = '\x0b' || c = '\x0c'

/-- Dropping a prefix cannot lengthen a list. -/
lemma length_dropWhile_le (p : Char → Bool) :
    ∀ (l : List Char), (l.dropWhile p).length ≤ l.length := by
  intro l
  induction l with
  | nil => simp
  | cons c cs ih =>
    rw [List.dropWhile]
    split
    · exact Nat.le_succ_of_le ih
    · exact Nat.le_refl _

/-- Python `str.split()` with no separator: split on runs of whitespace,
producing no empty tokens. -/
def pySplit : List Char → List (List Char)
  | [] => []
  | c :: cs =>
    if pyIsSpace c then pySplit cs
    else (c :: cs.takeWhile (fun d => !pyIsSpace d)) ::
      pySplit (cs.dropWhile (fun d => !pyIsSpace d))
termination_by s => s.length
decreasing_by
  · simp only [List.length_cons]
    omega
  · simp only [List.length_cons]
    exact Nat.lt_succ_of_le (length_dropWhile_le _ _)

/-- Lines 85-87, `extract_region`: a missing (`pd.isna`) or empty-string
address yields the sentinel `"기타"`, otherwise the first
whitespace-delimited token; indexing `[0]` on an empty split result is
an uncaught `IndexError`, embedded as `Except.error`. -/
def extract_region (address : Option (List Char)) : Except Unit (List Char) :=
  match address with
  | none => Except.ok "기타".data
  | some a =>
    if a = [] then Except.ok "기타".data
    else
      match pySplit a with
      | [] => Except.error ()
      | t :: _ => Except.ok t

/-- Line 89: `df['지역'] = df['주소'].apply(extract_region)` — applying
`extract_region` along the rows; an exception on any row aborts the
whole load. -/
def regionColumn : List Row → Except Unit (List (List Char))
  | [] => Except.ok []
  | r :: rs =>
    match extract_region r.address with
    | Except.error e => Except.error e
    | Except.ok v =>
      match regionColumn rs with
      | Except.error e => Except.error e
      | Except.ok vs => Except.ok (v :: vs)

/-- Splitting a string made only of whitespace yields no tokens. -/
lemma pySplit_all_space (a : List Char) (h : ∀ c ∈ a, pyIsSpace c = true) :
    pySplit a = [] := by
  induction a with
  | nil => rw [pySplit]
  | cons c cs ih =>
    rw [pySplit, if_pos (h c (List.mem_cons_self c cs))]
    exact ih (fun d hd => h d (List.mem_cons_of_mem c hd))

/-- C9: region extraction is not total on non-null, non-empty addresses:
a nonempty address made only of whitespace characters passes the
null/empty guard, splits to an empty token list, and the `[0]` access
raises, which aborts the whole load instead of returning the
"unclassified" sentinel. -/
theorem extract_region_whitespace_error (a : List Char)
    (h1 : a ≠ []) (h2 : ∀ c ∈ a, pyIsSpace c = true) :
    extract_region (some a) = Except.error () ∧
    extract_region (some a) ≠ Except.ok "기타".data ∧
    ∀ (pre post : List Row) (r : Row), r.address = some a →
      regionColumn (pre ++ r :: post) = Except.error () := by
  have hext : extract_region (some a) = Except.error () := by
    simp only [extract_region]
    rw [if_neg h1, pySplit_all_space a h2]
  refine ⟨hext, by rw [hext]; exact fun hcon => Except.noConfusion hcon, ?_⟩
  intro pre post r hr
  induction pre with
  | nil =>
    rw [List.nil_append, regionColumn, hr, hext]
  | cons p ps ih =>
    rw [List.cons_append, regionColumn, ih]
    cases extract_region p.address with
    | error e => rfl
    | ok v => rfl

/-- Witness for C9: the one-space address `" "` passes the guard and
makes the region derivation fail on a one-row table. -/
theorem extract_region_whitespace_error_witness :
    extract_region (some [' ']) = Except.error () ∧
    regionColumn [{ rowPos with address := some [' '] }] = Except.error () := by
  have h := extract_region_whitespace_error [' '] (by decide) (by decide)
  exact ⟨h.1, h.2.2 [] [] _ rfl⟩

/-- Line 180: the strict lexicographic key of
`df.sort_values(['주문자연락처', '주문일'])`. -/
def rowLt (a b : Row) : Bool :=
  decide (a.customer < b.customer) ||
    (decide (a.customer = b.customer) && decide (a.orderDate < b.orderDate))

/-- Stable insertion: `r` goes after every strictly smaller key and
before the first key that is not strictly smaller, so rows with equal
keys keep their original relative order. -/
def insertRow (r : Row) : List Row → List Row
  | [] => [r]
  | s :: rest => if rowLt s r then s :: insertRow r rest else r :: s :: rest

/-- Line 180: the stable sort by (customer, order date). -/
def sortRows (rows : List Row) : List Row := rows.foldr insertRow []

/-- Lines 181-182 on the sorted rows:
`repeat_custs['주문일'].shift(1)` then the day difference — for each row
after the first, the gap to the previous row when it belongs to the
same customer group, `none` (NaT) otherwise; the very first row also
gets `none`. -/
def shiftIntervals : List Row → List (Option Int)
  | [] => []
  | r0 :: rest =>
    none :: (List.zip (r0 :: rest) rest).map (fun p =>
      if p.2.customer = p.1.customer then some (p.2.orderDate - p.1.orderDate)
      else none)

/-- Lines 179-182: the 구매간격 (purchase interval) column, aligned with
the (customer, order date)-sorted row order. -/
def purchaseIntervals (rows : List Row) : List (Option Int) :=
  shiftIntervals (sortRows rows)

/-- Default row used only to state positional lookups with `getD`. -/
def defaultRow : Row :=
  { orderId := 0, productCode := 0, customer := 0, orderDate := 0,
    paid := 0, supply := 0, address := none }

/-- First line of order 7 of customer 3. -/
def lineA : Row :=
  { orderId := 7, productCode := 1, customer := 3, orderDate := 10,
    paid := 1, supply := 0, address := none }

/-- Second line of the same order 7 of customer 3 (another product). -/
def lineB : Row :=
  { orderId := 7, productCode := 2, customer := 3, orderDate := 10,
    paid := 2, supply := 0, address := none }

/-- A later single-line order of customer 3, seven days after order 7. -/
def lineC : Row :=
  { orderId := 8, productCode := 1, customer := 3, orderDate := 17,
    paid := 1, supply := 0, address := none }

/-- C8 counterexample: a customer whose first (and only) order has two
lines: the claim says every row of the first order gets a null
interval, but the second line gets the interval `0`, not null. -/
theorem purchase_interval_counterexample :
    lineA.orderId = lineB.orderId ∧ lineA.customer = lineB.customer ∧
    sortRows [lineA, lineB] = [lineA, lineB] ∧
    purchaseIntervals [lineA, lineB] = [none, some 0] ∧
    (purchaseIntervals [lineA, lineB]).getD 1 none ≠ none := by
  refine ⟨rfl, rfl, by decide, by decide, by decide⟩

/-- `shiftIntervals` returns one entry per row. -/
lemma shiftIntervals_length (s : List Row) :
    (shiftIntervals s).length = s.length := by
  cases s with
  | nil => rfl
  | cons r0 rest =>
    simp only [shiftIntervals, List.length_cons, List.length_map,
      List.length_zip]
    omega

/-- The first entry of `shiftIntervals` is null. -/
lemma shiftIntervals_getD_zero (s : List Row) :
    0 < s.length → (shiftIntervals s).getD 0 (some 0) = none := by
  cases s with
  | nil => intro h; simp at h
  | cons r0 rest => intro _; rfl

/-- Entry `i+1` of `shiftIntervals` compares row `i+1` with row `i`. -/
lemma shiftIntervals_getD_succ (s : List Row) (i : Nat) (h : i + 1 < s.length) :
    (shiftIntervals s).getD (i + 1) (some 0) =
      (if (s.getD (i + 1) defaultRow).customer = (s.getD i defaultRow).customer
       then some ((s.getD (i + 1) defaultRow).orderDate
          - (s.getD i defaultRow).orderDate)
       else none) := by
  cases s with
  | nil => simp at h
  | cons r0 rest =>
    have hi : i < rest.length := by
      simp only [List.length_cons] at h
      omega
    have hzip : i < ((r0 :: rest).zip rest).length := by
      rw [List.length_zip]
      simp only [List.length_cons]
      omega
    have hcons : i < (r0 :: rest).length := by
      simp only [List.length_cons]
      omega
    rw [shiftIntervals, List.getD_cons_succ,
      List.getD_eq_getElem _ _ (by rw [List.length_map]; exact hzip),
      List.getElem_map, List.getElem_zip,
      List.getD_eq_getElem _ _ h, List.getD_eq_getElem _ _ hcons,
      List.getElem_cons_succ]

/-- C8 amended: the interval column has one entry per row of the
(customer, order date)-sorted table; the first row's entry is null, and
entry `i+1` is null exactly when row `i+1` starts a new customer group,
otherwise it is the day gap to the immediately preceding row — so a
second line of a customer's first order receives the gap `0`, not
null, and only the customer's first line is null. -/
theorem purchase_interval_rowwise_spec (rows : List Row) (i : Nat)
    (h : i + 1 < (sortRows rows).length) :
    (purchaseIntervals rows).length = (sortRows rows).length ∧
    (purchaseIntervals rows).getD 0 (some 0) = none ∧
    (purchaseIntervals rows).getD (i + 1) (some 0) =
      (if ((sortRows rows).getD (i + 1) defaultRow).customer
          = ((sortRows rows).getD i defaultRow).customer
       then some (((sortRows rows).getD (i + 1) defaultRow).orderDate
          - ((sortRows rows).getD i defaultRow).orderDate)
       else none) :=
  ⟨shiftIntervals_length _,
   shiftIntervals_getD_zero _ (by omega),
   shiftIntervals_getD_succ _ i h⟩

/-- Witness for the amended C8 theorem: customer 3's second order, seven
days after the first, gets the interval 7. -/
theorem purchase_interval_rowwise_spec_witness :
    (purchaseIntervals [lineA, lineC]).getD 1 (some 0) = some 7 :=
  ((purchase_interval_rowwise_spec [lineA, lineC] 0 (by decide)).2.2).trans
    (by decide)

/-- Line 191, the selection `df[df['구매간격'] > 0]['구매간격']`: the
strictly positive purchase intervals (NaT/null intervals compare
false). -/
def posIntervals (rows : List Row) : List Int :=
  ((purchaseIntervals rows).filterMap id).filter (fun d => decide (0 < d))

/-- Line 191: the mean of the strictly positive purchase intervals,
with the constant 30 when no positive interval exists:
`df[df['구매간격'] > 0]['구매간격'].mean() if len(...) > 0 else 30`. -/
def avg_cycle (rows : List Row) : Rat :=
  if (posIntervals rows).length = 0 then 30
  else ((posIntervals rows).map (fun d => Int.cast d)).sum /
    ((posIntervals rows).length : Rat)

/-- Lines 192-196, `classify_churn`: four-way label from the idle days
against multiples of the mean cycle. -/
def classify_churn (avg : Rat) (days : Int) : String :=
  if (days : Rat) > avg * 3 then "완전 이탈"
  else if (days : Rat) > avg * 2 then "이탈 위험"
  else if (days : Rat) > avg then "주의 요망"
  else "활동 고객"

/-- Maximum of a list of day numbers (empty list never arises in the
pipeline; 0 is an arbitrary default). -/
def listMaxI : List Int → Int
  | [] => 0
  | x :: xs => xs.foldl max x

/-- Line 187: reference date = `df['주문일'].max()`. -/
def ref_date (rows : List Row) : Int := listMaxI (rows.map Row.orderDate)

/-- Line 186: the customer's last order date,
`df.groupby('주문자연락처')['주문일'].max()`. -/
def last_order (rows : List Row) (c : Nat) : Int :=
  listMaxI ((rows.filter (fun r => decide (r.customer = c))).map Row.orderDate)

/-- Line 188: 미구매기간 = reference date minus last order date. -/
def idle_days (rows : List Row) (c : Nat) : Int :=
  ref_date rows - last_order rows c

/-- Lines 185-199: the churn-risk label merged onto customer `c`. -/
def churn_label (rows : List Row) (c : Nat) : String :=
  classify_churn (avg_cycle rows) (idle_days rows c)

/-- The mean cycle is always strictly positive: either the fallback 30,
or a mean of strictly positive intervals. -/
lemma avg_cycle_pos (rows : List Row) : 0 < avg_cycle rows := by
  unfold avg_cycle
  split
  · norm_num
  · rename_i hne
    apply div_pos
    · apply List.sum_pos
      · intro x hx
        simp only [List.mem_map] at hx
        obtain ⟨d, hd, rfl⟩ := hx
        have hd2 := (List.mem_filter.mp hd).2
        simp only [decide_eq_true_eq] at hd2
        exact_mod_cast hd2
      · intro hcon
        apply hne
        have := congrArg List.length hcon
        rw [List.length_map] at this
        exact this
    · have h0 : 0 < (posIntervals rows).length := Nat.pos_of_ne_zero hne
      exact_mod_cast h0

/-- C5: the churn label of a customer is exactly the four-way
classification of the idle days against 1x, 2x and 3x the mean positive
purchase interval, where the mean is the average of the strictly
positive intervals and 30 when no positive interval exists. -/
theorem churn_classification_spec (rows : List Row) (c : Nat) :
    (churn_label rows c = "완전 이탈" ↔
      avg_cycle rows * 3 < (idle_days rows c : Rat)) ∧
    (churn_label rows c = "이탈 위험" ↔
      (avg_cycle rows * 2 < (idle_days rows c : Rat) ∧
        (idle_days rows c : Rat) ≤ avg_cycle rows * 3)) ∧
    (churn_label rows c = "주의 요망" ↔
      (avg_cycle rows < (idle_days rows c : Rat) ∧
        (idle_days rows c : Rat) ≤ avg_cycle rows * 2)) ∧
    (churn_label rows c = "활동 고객" ↔
      (idle_days rows c : Rat) ≤ avg_cycle rows) ∧
    (posIntervals rows = [] → avg_cycle rows = 30) ∧
    (posIntervals rows ≠ [] →
      avg_cycle rows = (((posIntervals rows).map (fun d => Int.cast d)).sum) /
        ((posIntervals rows).length : Rat)) := by
  have hpos := avg_cycle_pos rows
  set a := avg_cycle rows with ha
  set D := ((idle_days rows c : Int) : Rat) with hD
  refine ⟨?_, ?_, ?_, ?_, ?_, ?_⟩
  · unfold churn_label classify_churn
    rw [← ha, ← hD]
    split_ifs with h1 h2 h3
    · exact iff_of_true rfl h1
    · exact iff_of_false (by decide) h1
    · exact iff_of_false (by decide) h1
    · exact iff_of_false (by decide) h1
  · unfold churn_label classify_churn
    rw [← ha, ← hD]
    split_ifs with h1 h2 h3
    · exact iff_of_false (by decide) (fun hh => absurd hh.2 (not_le.mpr h1))
    · exact iff_of_true rfl ⟨h2, not_lt.mp h1⟩
    · exact iff_of_false (by decide) (fun hh => h2 hh.1)
    · exact iff_of_false (by decide) (fun hh => h2 hh.1)
  · unfold churn_label classify_churn
    rw [← ha, ← hD]
    split_ifs with h1 h2 h3
    · exact iff_of_false (by decide) (fun hh => by linarith [hh.1, hh.2])
    · exact iff_of_false (by decide) (fun hh => absurd hh.2 (not_le.mpr h2))
    · exact iff_of_true rfl ⟨h3, not_lt.mp h2⟩
    · exact iff_of_false (by decide) (fun hh => h3 hh.1)
  · unfold churn_label classify_churn
    rw [← ha, ← hD]
    split_ifs with h1 h2 h3
    · exact iff_of_false (by decide) (fun hh => by linarith)
    · exact iff_of_false (by decide) (fun hh => by linarith)
    · exact iff_of_false (by decide) (fun hh => by linarith)
    · exact iff_of_true rfl (not_lt.mp h3)
  · intro h
    rw [ha]
    unfold avg_cycle
    rw [if_pos (by rw [h]; rfl)]
  · intro hne
    rw [ha]
    unfold avg_cycle
    rw [if_neg (by
      intro hcon
      exact hne (List.length_eq_zero.mp hcon))]

/-- Concrete churn dataset: customer 1 orders on days 0 and 10 (one
positive interval of 10 days, so the mean cycle is 10), customer 2
orders once on day -25, making customer 2 idle 35 days at the
reference date 10. -/
def churnRows : List Row :=
  [{ orderId := 1, productCode := 1, customer := 1, orderDate := 0,
     paid := 1, supply := 0, address := none },
   { orderId := 2, productCode := 1, customer := 1, orderDate := 10,
     paid := 1, supply := 0, address := none },
   { orderId := 3, productCode := 1, customer := 2, orderDate := -25,
     paid := 1, supply := 0, address := none }]

/-- Witness for C5, matching the spec's worked example: mean positive
interval 10, customer idle 35 days is fully churned (35 > 30), and the
mean really is the average of the positive intervals. -/
theorem churn_classification_spec_witness :
    churn_label churnRows 2 = "완전 이탈" ∧ avg_cycle churnRows = 10 := by
  have h6 : avg_cycle churnRows = 10 := by
    have h := (churn_classification_spec churnRows 2).2.2.2.2.2 (by decide)
    rw [h, show posIntervals churnRows = [10] from by decide]
    norm_num
  refine ⟨?_, h6⟩
  apply (churn_classification_spec churnRows 2).1.mpr
  rw [h6, show idle_days churnRows 2 = 35 from by decide]
  norm_num

/-- Line 134 helper: pandas `rank(method='first')` over the per-customer
metric list `vs` — the ascending rank of entry `i`, with ties broken by
position (stable insertion order). -/
def rankFirst (vs : List Rat) (i : Nat) : Nat :=
  1 + ((Finset.range vs.length).filter (fun j =>
    vs.getD j 0 < vs.getD i 0 ∨ (vs.getD j 0 = vs.getD i 0 ∧ j < i))).card

/-- Lines 134-136: the `pd.qcut(ranks, 5)` bin index of rank `r` among
`n` ranks.  The rank data is exactly `1..n`, so its linear-interpolation
quantile edges are `1 + k(n-1)/5` for `k = 0..5`, and the bins are
right-closed with the lowest value included in bin 0. -/
def qcutBin (n r : Nat) : Nat :=
  if (r : Rat) ≤ 1 + ((n : Rat) - 1) / 5 then 0
  else if (r : Rat) ≤ 1 + 2 * ((n : Rat) - 1) / 5 then 1
  else if (r : Rat) ≤ 1 + 3 * ((n : Rat) - 1) / 5 then 2
  else if (r : Rat) ≤ 1 + 4 * ((n : Rat) - 1) / 5 then 3
  else 4

/-- Line 134: recency score — labels `[5, 4, 3, 2, 1]`, so bin `b` gets
label `5 - b` (smallest recency rank scores 5). -/
def R_score (vs : List Rat) (i : Nat) : Nat :=
  5 - qcutBin vs.length (rankFirst vs i)

/-- Line 135: frequency score — labels `[1, 2, 3, 4, 5]`, bin `b` gets
label `b + 1`. -/
def F_score (vs : List Rat) (i : Nat) : Nat :=
  qcutBin vs.length (rankFirst vs i) + 1

/-- Line 136: monetary score — same labelling as the frequency score. -/
def M_score (vs : List Rat) (i : Nat) : Nat :=
  qcutBin vs.length (rankFirst vs i) + 1

/-- Larger metric value means strictly larger first-rank. -/
lemma rankFirst_le_of_lt (vs : List Rat) (i j : Nat)
    (hij : vs.getD i 0 < vs.getD j 0) : rankFirst vs i ≤ rankFirst vs j := by
  unfold rankFirst
  apply Nat.add_le_add_left
  apply Finset.card_le_card
  intro k hk
  simp only [Finset.mem_filter, Finset.mem_range] at hk ⊢
  refine ⟨hk.1, Or.inl ?_⟩
  rcases hk.2 with h | h
  · exact lt_trans h hij
  · rw [h.1]
    exact hij

/-- The qcut bin is monotone in the rank. -/
lemma qcutBin_mono (n : Nat) {r s : Nat} (h : r ≤ s) :
    qcutBin n r ≤ qcutBin n s := by
  have hc : (r : Rat) ≤ (s : Rat) := by exact_mod_cast h
  unfold qcutBin
  split_ifs <;> first | omega | (exfalso; linarith)

/-- C6: scored over the same dataset, strictly smaller recency-days give
a recency score at least as large, and strictly larger frequency gives
a frequency score at least as large. -/
theorem rfm_score_monotone (vs : List Rat) (i j : Nat)
    (_hi : i < vs.length) (_hj : j < vs.length) :
    (vs.getD i 0 < vs.getD j 0 → R_score vs j ≤ R_score vs i) ∧
    (vs.getD j 0 < vs.getD i 0 → F_score vs j ≤ F_score vs i) := by
  constructor
  · intro h
    unfold R_score
    exact Nat.sub_le_sub_left (qcutBin_mono _ (rankFirst_le_of_lt vs i j h)) 5
  · intro h
    unfold F_score
    exact Nat.add_le_add_right (qcutBin_mono _ (rankFirst_le_of_lt vs j i h)) 1

/-- Witness for C6 on the metric list `[3, 7]`: the customer with the
smaller value scores at least as high on R, the one with the larger
value at least as high on F. -/
theorem rfm_score_monotone_witness :
    R_score [(3 : Rat), 7] 1 ≤ R_score [(3 : Rat), 7] 0 ∧
    F_score [(3 : Rat), 7] 0 ≤ F_score [(3 : Rat), 7] 1 :=
  ⟨(rfm_score_monotone [(3 : Rat), 7] 0 1 (by norm_num) (by norm_num)).1
      (by norm_num),
   (rfm_score_monotone [(3 : Rat), 7] 1 0 (by norm_num) (by norm_num)).2
      (by norm_num)⟩

/-- Any first-rank is at least 1 and at most the population size. -/
lemma rankFirst_mem_Icc (vs : List Rat) (i : Nat) (hi : i < vs.length) :
    rankFirst vs i ∈ Finset.Icc 1 vs.length := by
  rw [Finset.mem_Icc]
  unfold rankFirst
  constructor
  · omega
  · have hsub : (Finset.range vs.length).filter (fun j =>
        vs.getD j 0 < vs.getD i 0 ∨ (vs.getD j 0 = vs.getD i 0 ∧ j < i)) ⊆
        (Finset.range vs.length).erase i := by
      intro k hk
      simp only [Finset.mem_filter, Finset.mem_range] at hk
      rw [Finset.mem_erase]
      constructor
      · rintro rfl
        rcases hk.2 with h | h
        · exact lt_irrefl _ h
        · exact lt_irrefl _ h.2
      · exact Finset.mem_range.mpr hk.1
    have hcard := Finset.card_le_card hsub
    rw [Finset.card_erase_of_mem (Finset.mem_range.mpr hi),
      Finset.card_range] at hcard
    omega

/-- The first-rank is strictly monotone in the (value, position)
lexicographic order. -/
lemma rankFirst_lt_of_lex (vs : List Rat) (i j : Nat) (hi : i < vs.length)
    (hlex : vs.getD i 0 < vs.getD j 0 ∨
      (vs.getD i 0 = vs.getD j 0 ∧ i < j)) :
    rankFirst vs i < rankFirst vs j := by
  unfold rankFirst
  apply Nat.add_lt_add_left
  apply Finset.card_lt_card
  have hsub : (Finset.range vs.length).filter (fun k =>
      vs.getD k 0 < vs.getD i 0 ∨ (vs.getD k 0 = vs.getD i 0 ∧ k < i)) ⊆
      (Finset.range vs.length).filter (fun k =>
        vs.getD k 0 < vs.getD j 0 ∨ (vs.getD k 0 = vs.getD j 0 ∧ k < j)) := by
    intro k hk
    simp only [Finset.mem_filter, Finset.mem_range] at hk ⊢
    refine ⟨hk.1, ?_⟩
    rcases hk.2 with h | h
    · rcases hlex with hl | hl
      · exact Or.inl (lt_trans h hl)
      · exact Or.inl (by rw [← hl.1]; exact h)
    · rcases hlex with hl | hl
      · exact Or.inl (by rw [h.1]; exact hl)
      · exact Or.inr ⟨by rw [h.1, hl.1], lt_trans h.2 hl.2⟩
  rw [Finset.ssubset_iff_of_subset hsub]
  refine ⟨i, ?_, ?_⟩
  · simp only [Finset.mem_filter, Finset.mem_range]
    exact ⟨hi, hlex⟩
  · intro hcon
    simp only [Finset.mem_filter, Finset.mem_range] at hcon
    rcases hcon.2 with h | h
    · exact lt_irrefl _ h
    · exact lt_irrefl _ h.2

/-- On the index range, the first-rank map is injective. -/
lemma rankFirst_injOn (vs : List Rat) :
    Set.InjOn (rankFirst vs) ↑(Finset.range vs.length) := by
  intro i hi j hj hij
  simp only [Finset.coe_range, Set.mem_Iio] at hi hj
  by_contra hne
  rcases lt_trichotomy (vs.getD i 0) (vs.getD j 0) with h | h | h
  · exact absurd hij (Nat.ne_of_lt (rankFirst_lt_of_lex vs i j hi (Or.inl h)))
  · rcases Nat.lt_trichotomy i j with h2 | h2 | h2
    · exact absurd hij
        (Nat.ne_of_lt (rankFirst_lt_of_lex vs i j hi (Or.inr ⟨h, h2⟩)))
    · exact hne h2
    · exact absurd hij
        (Nat.ne_of_gt (rankFirst_lt_of_lex vs j i hj (Or.inr ⟨h.symm, h2⟩)))
  · exact absurd hij (Nat.ne_of_gt (rankFirst_lt_of_lex vs j i hj (Or.inl h)))

/-- The first-ranks of an `n`-element metric list are exactly `1..n`. -/
lemma rankFirst_image (vs : List Rat) :
    (Finset.range vs.length).image (rankFirst vs) = Finset.Icc 1 vs.length := by
  apply Finset.eq_of_subset_of_card_le
  · intro r hr
    simp only [Finset.mem_image] at hr
    obtain ⟨i, hi, rfl⟩ := hr
    exact rankFirst_mem_Icc vs i (Finset.mem_range.mp hi)
  · rw [Finset.card_image_of_injOn (rankFirst_injOn vs), Finset.card_range,
      Nat.card_Icc]
    omega

/-- Counting customers by a property of their rank equals counting the
ranks `1..n` with that property. -/
lemma count_by_rank (vs : List Rat) (p : Nat → Prop) [DecidablePred p] :
    ((Finset.range vs.length).filter (fun i => p (rankFirst vs i))).card =
      ((Finset.Icc 1 vs.length).filter (fun r => p r)).card := by
  have h2 : ((Finset.range vs.length).filter
      (fun i => p (rankFirst vs i))).image (rankFirst vs) =
      (Finset.Icc 1 vs.length).filter (fun r => p r) := by
    ext r
    simp only [Finset.mem_image, Finset.mem_filter, Finset.mem_range]
    constructor
    · rintro ⟨i, ⟨hi, hp⟩, rfl⟩
      have hm := rankFirst_mem_Icc vs i hi
      rw [Finset.mem_Icc] at hm ⊢
      exact ⟨hm, hp⟩
    · rintro ⟨hr, hp⟩
      have hmem : r ∈ (Finset.range vs.length).image (rankFirst vs) := by
        rw [rankFirst_image]
        exact hr
      simp only [Finset.mem_image, Finset.mem_range] at hmem
      obtain ⟨i, hi, rfl⟩ := hmem
      exact ⟨i, ⟨hi, hp⟩, rfl⟩
  rw [← h2]
  exact (Finset.card_image_of_injOn ((rankFirst_injOn vs).mono
    (Finset.coe_subset.mpr (Finset.filter_subset _ _)))).symm

/-- First quantile edge for a population of `5m`: rank at most `m`. -/
lemma qcut_thresh_one (m r : Nat) :
    ((r : Rat) ≤ 1 + (((5 * m : Nat) : Rat) - 1) / 5) ↔ r ≤ m := by
  constructor
  · intro h
    push_cast at h
    have h5 : (5 : Rat) * r ≤ 5 * m + 4 := by linarith
    have h7 : (5 * r : Nat) ≤ 5 * m + 4 := by exact_mod_cast h5
    omega
  · intro h
    have h7 : (5 * r : Nat) ≤ 5 * m := by omega
    have h5 : ((5 * r : Nat) : Rat) ≤ ((5 * m : Nat) : Rat) := by exact_mod_cast h7
    push_cast at h5 ⊢
    linarith

/-- Second quantile edge: rank at most `2m`. -/
lemma qcut_thresh_two (m r : Nat) :
    ((r : Rat) ≤ 1 + 2 * (((5 * m : Nat) : Rat) - 1) / 5) ↔ r ≤ 2 * m := by
  constructor
  · intro h
    push_cast at h
    have h5 : (5 : Rat) * r ≤ 10 * m + 3 := by linarith
    have h7 : (5 * r : Nat) ≤ 10 * m + 3 := by exact_mod_cast h5
    omega
  · intro h
    have h7 : (5 * r : Nat) ≤ 10 * m := by omega
    have h5 : ((5 * r : Nat) : Rat) ≤ ((10 * m : Nat) : Rat) := by exact_mod_cast h7
    push_cast at h5 ⊢
    linarith

/-- Third quantile edge: rank at most `3m`. -/
lemma qcut_thresh_three (m r : Nat) :
    ((r : Rat) ≤ 1 + 3 * (((5 * m : Nat) : Rat) - 1) / 5) ↔ r ≤ 3 * m := by
  constructor
  · intro h
    push_cast at h
    have h5 : (5 : Rat) * r ≤ 15 * m + 2 := by linarith
    have h7 : (5 * r : Nat) ≤ 15 * m + 2 := by exact_mod_cast h5
    omega
  · intro h
    have h7 : (5 * r : Nat) ≤ 15 * m := by omega
    have h5 : ((5 * r : Nat) : Rat) ≤ ((15 * m : Nat) : Rat) := by exact_mod_cast h7
    push_cast at h5 ⊢
    linarith

/-- Fourth quantile edge: rank at most `4m`. -/
lemma qcut_thresh_four (m r : Nat) :
    ((r : Rat) ≤ 1 + 4 * (((5 * m : Nat) : Rat) - 1) / 5) ↔ r ≤ 4 * m := by
  constructor
  · intro h
    push_cast at h
    have h5 : (5 : Rat) * r ≤ 20 * m + 1 := by linarith
    have h7 : (5 * r : Nat) ≤ 20 * m + 1 := by exact_mod_cast h5
    omega
  · intro h
    have h7 : (5 * r : Nat) ≤ 20 * m := by omega
    have h5 : ((5 * r : Nat) : Rat) ≤ ((20 * m : Nat) : Rat) := by exact_mod_cast h7
    push_cast at h5 ⊢
    linarith

/-- For a population divisible by 5, the qcut bin of a rank is its
`m`-sized block. -/
lemma qcutBin_eq (m r b : Nat) (_hm : 0 < m) (hr1 : 1 ≤ r) (hrn : r ≤ 5 * m)
    (hb : b ≤ 4) :
    qcutBin (5 * m) r = b ↔ m * b < r ∧ r ≤ m * (b + 1) := by
  constructor
  · intro h
    interval_cases b <;>
      · unfold qcutBin at h
        simp only [qcut_thresh_one, qcut_thresh_two, qcut_thresh_three,
          qcut_thresh_four] at h
        split_ifs at h <;> omega
  · intro h
    interval_cases b <;>
      · unfold qcutBin
        simp only [qcut_thresh_one, qcut_thresh_two, qcut_thresh_three,
          qcut_thresh_four]
        split_ifs <;> omega

/-- The qcut bin never exceeds 4. -/
lemma qcutBin_le_four (n r : Nat) : qcutBin n r ≤ 4 := by
  unfold qcutBin
  split_ifs <;> omega

/-- Each of the five bins holds exactly `m` of the `5m` ranks. -/
lemma qcutBin_bucket_card (m b : Nat) (hm : 0 < m) (hb : b ≤ 4) :
    ((Finset.Icc 1 (5 * m)).filter (fun r => qcutBin (5 * m) r = b)).card
      = m := by
  have hset : (Finset.Icc 1 (5 * m)).filter (fun r => qcutBin (5 * m) r = b) =
      Finset.Ioc (m * b) (m * (b + 1)) := by
    ext r
    simp only [Finset.mem_filter, Finset.mem_Icc, Finset.mem_Ioc]
    constructor
    · rintro ⟨⟨h1, h2⟩, h3⟩
      exact (qcutBin_eq m r b hm h1 h2 hb).mp h3
    · rintro ⟨h1, h2⟩
      have hr1 : 1 ≤ r := Nat.one_le_iff_ne_zero.mpr (by
        intro hz
        rw [hz] at h1
        exact Nat.not_lt_zero _ h1)
      have hb5 : m * (b + 1) ≤ 5 * m := by
        have hmul : m * (b + 1) ≤ m * 5 := Nat.mul_le_mul_left m (by omega)
        rw [Nat.mul_comm m 5] at hmul
        exact hmul
      have hrn : r ≤ 5 * m := le_trans h2 hb5
      exact ⟨⟨hr1, hrn⟩, (qcutBin_eq m r b hm hr1 hrn hb).mpr ⟨h1, h2⟩⟩
  rw [hset, Nat.card_Ioc, Nat.mul_succ]
  omega

/-- C7 amended: when the customer count is a positive multiple of 5,
each of the scores 1..5 is assigned to exactly a fifth of the
population, for each of the R, F and M scorings. -/
theorem rfm_equal_buckets_of_div5 (vs : List Rat) (m s : Nat) (hm : 0 < m)
    (hn : vs.length = 5 * m) (hs1 : 1 ≤ s) (hs5 : s ≤ 5) :
    ((Finset.range vs.length).filter (fun i => R_score vs i = s)).card
        = vs.length / 5 ∧
    ((Finset.range vs.length).filter (fun i => F_score vs i = s)).card
        = vs.length / 5 ∧
    ((Finset.range vs.length).filter (fun i => M_score vs i = s)).card
        = vs.length / 5 := by
  refine ⟨?_, ?_, ?_⟩
  · have hcong : ∀ i ∈ Finset.range vs.length,
        (R_score vs i = s ↔ qcutBin vs.length (rankFirst vs i) = 5 - s) := by
      intro i _
      unfold R_score
      have h4 := qcutBin_le_four vs.length (rankFirst vs i)
      omega
    rw [Finset.filter_congr hcong,
      count_by_rank vs (fun r => qcutBin vs.length r = 5 - s), hn,
      qcutBin_bucket_card m (5 - s) hm (by omega)]
    omega
  · have hcong : ∀ i ∈ Finset.range vs.length,
        (F_score vs i = s ↔ qcutBin vs.length (rankFirst vs i) = s - 1) := by
      intro i _
      unfold F_score
      have h4 := qcutBin_le_four vs.length (rankFirst vs i)
      omega
    rw [Finset.filter_congr hcong,
      count_by_rank vs (fun r => qcutBin vs.length r = s - 1), hn,
      qcutBin_bucket_card m (s - 1) hm (by omega)]
    omega
  · have hcong : ∀ i ∈ Finset.range vs.length,
        (M_score vs i = s ↔ qcutBin vs.length (rankFirst vs i) = s - 1) := by
      intro i _
      unfold M_score
      have h4 := qcutBin_le_four vs.length (rankFirst vs i)
      omega
    rw [Finset.filter_congr hcong,
      count_by_rank vs (fun r => qcutBin vs.length r = s - 1), hn,
      qcutBin_bucket_card m (s - 1) hm (by omega)]
    omega

/-- Six distinct metric values: a population of 6 customers. -/
def vs6 : List Rat := [0, 1, 2, 3, 4, 5]

/-- Five distinct metric values: a population of 5 customers. -/
def vs5 : List Rat := [0, 1, 2, 3, 4]

/-- C7 counterexample: with 6 customers the buckets cannot all have size
`n/5`: two customers get recency score 5, but `6 / 5 = 1`. -/
theorem rfm_equal_buckets_counterexample :
    vs6.length = 6 ∧
    ((Finset.range vs6.length).filter (fun i => R_score vs6 i = 5)).card ≠
      vs6.length / 5 := by
  have hq1 : qcutBin 6 1 = 0 := by
    unfold qcutBin
    rw [if_pos (by norm_num)]
  have hq2 : qcutBin 6 2 = 0 := by
    unfold qcutBin
    rw [if_pos (by norm_num)]
  have h0 : R_score vs6 0 = 5 := by
    unfold R_score
    rw [show rankFirst vs6 0 = 1 from by decide,
      show vs6.length = 6 from rfl, hq1]
  have h1 : R_score vs6 1 = 5 := by
    unfold R_score
    rw [show rankFirst vs6 1 = 2 from by decide,
      show vs6.length = 6 from rfl, hq2]
  refine ⟨rfl, ?_⟩
  have hlt : 1 < ((Finset.range vs6.length).filter
      (fun i => R_score vs6 i = 5)).card := by
    rw [Finset.one_lt_card]
    refine ⟨0, ?_, 1, ?_, by omega⟩
    · rw [Finset.mem_filter]
      exact ⟨by rw [Finset.mem_range]; decide, h0⟩
    · rw [Finset.mem_filter]
      exact ⟨by rw [Finset.mem_range]; decide, h1⟩
  intro hcon
  rw [hcon, show vs6.length / 5 = 1 from rfl] at hlt
  exact lt_irrefl 1 hlt

/-- Witness for the amended C7 theorem on 5 customers: exactly
`5 / 5 = 1` customer holds recency score 3. -/
theorem rfm_equal_buckets_of_div5_witness :
    ((Finset.range vs5.length).filter (fun i => R_score vs5 i = 3)).card =
      vs5.length / 5 :=
  (rfm_equal_buckets_of_div5 vs5 1 3 (by norm_num) rfl (by norm_num)
    (by norm_num)).1

/-- The six quantile edges `pd.qcut` computes for the rank data `1..n`
(linear interpolation of the order statistics). -/
def qcutEdges (n : Nat) : List Rat :=
  [1, 1 + ((n : Rat) - 1) / 5, 1 + 2 * ((n : Rat) - 1) / 5,
   1 + 3 * ((n : Rat) - 1) / 5, 1 + 4 * ((n : Rat) - 1) / 5, (n : Rat)]

/-- Lines 134-136 including `pd.qcut`'s duplicate-edge check: when the
six quantile edges are not pairwise distinct, `pd.qcut` raises
`ValueError: Bin edges must be unique` (its default
`duplicates='raise'`), which escapes `load_data`; otherwise the scores
are produced. -/
def rfm_scores (vs : List Rat) : Except String (List Nat) :=
  if (qcutEdges vs.length).Nodup then
    Except.ok ((List.range vs.length).map (fun i => R_score vs i))
  else Except.error "Bin edges must be unique"

/-- C10: with the customer column present but exactly one distinct
customer, the rank list is `[1]`, all quantile edges collapse to 1,
and `pd.qcut` raises — the whole load fails; with at least two
distinct customers the edges are strictly increasing and scoring
succeeds. -/
theorem rfm_single_customer_error (vs : List Rat) :
    (vs.length = 1 → rfm_scores vs = Except.error "Bin edges must be unique") ∧
    (2 ≤ vs.length → ∃ scores, rfm_scores vs = Except.ok scores) := by
  constructor
  · intro h
    unfold rfm_scores
    rw [h, show qcutEdges 1 = [1, 1, 1, 1, 1, 1] from by
      unfold qcutEdges
      norm_num]
    rw [if_neg (by decide)]
  · intro h
    have h2 : (2 : Rat) ≤ (vs.length : Rat) := by exact_mod_cast h
    have hnd : (qcutEdges vs.length).Nodup := by
      unfold qcutEdges
      have hx1 : (1 : Rat) ≤ (vs.length : Rat) - 1 := by linarith
      simp only [List.nodup_cons, List.mem_cons, List.mem_singleton,
        List.not_mem_nil, or_false, not_or, List.nodup_nil, and_true]
      repeat' constructor
      all_goals intro hcon
      all_goals first
        | exact hcon
        | linarith
    unfold rfm_scores
    rw [if_pos hnd]
    exact ⟨_, rfl⟩

/-- Witness for C10: a one-customer metric list fails, a two-customer
list scores. -/
theorem rfm_single_customer_error_witness :
    rfm_scores [(3 : Rat)] = Except.error "Bin edges must be unique" ∧
    ∃ scores, rfm_scores [(1 : Rat), 2] = Except.ok scores :=
  ⟨(rfm_single_customer_error [(3 : Rat)]).1 rfl,
   (rfm_single_customer_error [(1 : Rat), 2]).2 (by norm_num)⟩

end AppSales
